import Mathlib

/-!
Verification of the attributed-body decoder of `src/imsg-read.py`
(`decode_attributed_body`).  The Python function is shallowly embedded:
bytes are `List Nat`, Python strings are `List Char`, the absent blob is
`none`.  Every definition mirrors the corresponding line of the source;
recursions carry an explicit fuel argument equal to the input length so
that all definitions reduce inside the kernel.
-/

/-- Models Python `str.isspace` on a single character.  This is the complete
Unicode whitespace set used by `str.split()`, `str.strip()` and the regex
class `\s` in Python 3. -/
def pyIsSpaceB (c : Char) : Bool :=
  let n := c.toNat
  decide ((0x9 ≤ n ∧ n ≤ 0xD) ∨ (0x1C ≤ n ∧ n ≤ 0x20) ∨ n = 0x85 ∨ n = 0xA0 ∨
    n = 0x1680 ∨ (0x2000 ≤ n ∧ n ≤ 0x200A) ∨ n = 0x2028 ∨ n = 0x2029 ∨
    n = 0x202F ∨ n = 0x205F ∨ n = 0x3000)

/-- Models Python `str.islower` on a single character.  Exact on the
Latin-1 range, which covers every character these theorems exercise; code
points above 0xFF are treated as not lowercase. -/
def pyIsLowerB (c : Char) : Bool :=
  let n := c.toNat
  decide ((0x61 ≤ n ∧ n ≤ 0x7A) ∨ n = 0xAA ∨ n = 0xB5 ∨ n = 0xBA ∨
    (0xDF ≤ n ∧ n ≤ 0xF6) ∨ (0xF8 ≤ n ∧ n ≤ 0xFF))

/-- Models Python `str.isupper` on a single character.  Exact on the
Latin-1 range; code points above 0xFF are treated as not uppercase. -/
def pyIsUpperB (c : Char) : Bool :=
  let n := c.toNat
  decide ((0x41 ≤ n ∧ n ≤ 0x5A) ∨ (0xC0 ≤ n ∧ n ≤ 0xD6) ∨ (0xD8 ≤ n ∧ n ≤ 0xDE))

/-- Models Python `str.isprintable` on a single character.  Exact on the
Latin-1 range (not printable: C0 and C1 controls, 0xA0, 0xAD); above 0xFF
the known separator, format and private-use ranges are excluded. -/
def pyIsPrintableB (c : Char) : Bool :=
  let n := c.toNat
  !(decide (n ≤ 0x1F ∨ (0x7F ≤ n ∧ n ≤ 0xA0) ∨ n = 0xAD ∨ n = 0x1680 ∨
    (0x2000 ≤ n ∧ n ≤ 0x200F) ∨ (0x2028 ≤ n ∧ n ≤ 0x202E) ∨ n = 0x205F ∨
    (0x2060 ≤ n ∧ n ≤ 0x206F) ∨ n = 0x3000 ∨ (0xE000 ≤ n ∧ n ≤ 0xF8FF) ∨
    n = 0xFEFF ∨ (0xFFF9 ≤ n ∧ n ≤ 0xFFFB)))

/-- A UTF-8 continuation byte. -/
def isCont (b : Nat) : Bool := decide (0x80 ≤ b ∧ b ≤ 0xBF)

/-- Models CPython's UTF-8 decoder with `errors='ignore'` (the
`blob.decode('utf-8', errors='ignore')` on line 18 of the source): every
maximal subpart of an ill-formed sequence is deleted — nothing is
substituted for it — and decoding resumes at the next byte.  The fuel
argument only makes the recursion structural; with `fuel ≥ length` it is
never exhausted, since every call drops at least one byte. -/
def utf8IgnoreFuel : Nat → List Nat → List Char
  | _, [] => []
  | 0, _ => []
  | fuel + 1, b :: bs =>
    if b < 0x80 then Char.ofNat b :: utf8IgnoreFuel fuel bs
    else if b < 0xC2 then utf8IgnoreFuel fuel bs
    else if b ≤ 0xDF then
      match bs with
      | [] => []
      | b2 :: bs2 =>
        if isCont b2 then
          Char.ofNat ((b - 0xC0) * 0x40 + (b2 - 0x80)) :: utf8IgnoreFuel fuel bs2
        else utf8IgnoreFuel fuel (b2 :: bs2)
    else if b ≤ 0xEF then
      match bs with
      | [] => []
      | b2 :: bs2 =>
        if (if b = 0xE0 then decide (0xA0 ≤ b2 ∧ b2 ≤ 0xBF)
            else if b = 0xED then decide (0x80 ≤ b2 ∧ b2 ≤ 0x9F)
            else isCont b2) then
          match bs2 with
          | [] => []
          | b3 :: bs3 =>
            if isCont b3 then
              Char.ofNat ((b - 0xE0) * 0x1000 + (b2 - 0x80) * 0x40 + (b3 - 0x80)) ::
                utf8IgnoreFuel fuel bs3
            else utf8IgnoreFuel fuel (b3 :: bs3)
        else utf8IgnoreFuel fuel (b2 :: bs2)
    else if b ≤ 0xF4 then
      match bs with
      | [] => []
      | b2 :: bs2 =>
        if (if b = 0xF0 then decide (0x90 ≤ b2 ∧ b2 ≤ 0xBF)
            else if b = 0xF4 then decide (0x80 ≤ b2 ∧ b2 ≤ 0x8F)
            else isCont b2) then
          match bs2 with
          | [] => []
          | b3 :: bs3 =>
            if isCont b3 then
              match bs3 with
              | [] => []
              | b4 :: bs4 =>
                if isCont b4 then
                  Char.ofNat ((b - 0xF0) * 0x40000 + (b2 - 0x80) * 0x1000 +
                    (b3 - 0x80) * 0x40 + (b4 - 0x80)) :: utf8IgnoreFuel fuel bs4
                else utf8IgnoreFuel fuel (b4 :: bs4)
            else utf8IgnoreFuel fuel (b3 :: bs3)
        else utf8IgnoreFuel fuel (b2 :: bs2)
    else utf8IgnoreFuel fuel bs

/-- The Lossy Text View: `blob.decode('utf-8', errors='ignore')`. -/
def utf8Ignore (bs : List Nat) : List Char := utf8IgnoreFuel bs.length bs

/-- One decoding step of the codec, factored out of `utf8IgnoreFuel`
branch by branch: given a non-empty input `b :: bs`, return what the step
emits (one character for a well-formed leading UTF-8 sequence, nothing for
a maximal ill-formed subpart, including truncated sequences at the end of
input) and the bytes remaining after the sequence or subpart.  Each arm
matches the arm of `utf8IgnoreFuel` with the same guard: the emitted
character is the cons head there and the remainder is the argument of the
recursive call (`[]` for the end-of-input arms). -/
def utf8First (b : Nat) (bs : List Nat) : Option Char × List Nat :=
  if b < 0x80 then (some (Char.ofNat b), bs)
  else if b < 0xC2 then (none, bs)
  else if b ≤ 0xDF then
    match bs with
    | [] => (none, [])
    | b2 :: bs2 =>
      if isCont b2 then (some (Char.ofNat ((b - 0xC0) * 0x40 + (b2 - 0x80))), bs2)
      else (none, b2 :: bs2)
  else if b ≤ 0xEF then
    match bs with
    | [] => (none, [])
    | b2 :: bs2 =>
      if (if b = 0xE0 then decide (0xA0 ≤ b2 ∧ b2 ≤ 0xBF)
          else if b = 0xED then decide (0x80 ≤ b2 ∧ b2 ≤ 0x9F)
          else isCont b2) then
        match bs2 with
        | [] => (none, [])
        | b3 :: bs3 =>
          if isCont b3 then
            (some (Char.ofNat ((b - 0xE0) * 0x1000 + (b2 - 0x80) * 0x40 + (b3 - 0x80))), bs3)
          else (none, b3 :: bs3)
      else (none, b2 :: bs2)
  else if b ≤ 0xF4 then
    match bs with
    | [] => (none, [])
    | b2 :: bs2 =>
      if (if b = 0xF0 then decide (0x90 ≤ b2 ∧ b2 ≤ 0xBF)
          else if b = 0xF4 then decide (0x80 ≤ b2 ∧ b2 ≤ 0x8F)
          else isCont b2) then
        match bs2 with
        | [] => (none, [])
        | b3 :: bs3 =>
          if isCont b3 then
            match bs3 with
            | [] => (none, [])
            | b4 :: bs4 =>
              if isCont b4 then
                (some (Char.ofNat ((b - 0xF0) * 0x40000 + (b2 - 0x80) * 0x1000 +
                  (b3 - 0x80) * 0x40 + (b4 - 0x80))), bs4)
              else (none, b4 :: bs4)
          else (none, b3 :: bs3)
      else (none, b2 :: bs2)
  else (none, bs)

/-- Models Python `str.find` for a substring: index of the leftmost
occurrence, `none` when absent (Python returns -1; `in` is `isSome`). -/
def pyFind (pat : List Char) : List Char → Option Nat
  | [] => if pat.isPrefixOf ([] : List Char) then some 0 else none
  | c :: t =>
    if pat.isPrefixOf (c :: t) then some 0
    else (pyFind pat t).map (fun n => n + 1)

/-- Models the Python `in` substring test. -/
def containsSub (pat s : List Char) : Bool := (pyFind pat s).isSome

/-- Models `chunk[:chunk.find(cutoff)]` guarded by `if cutoff in chunk`
(lines 37-39 of the source). -/
def cutAt (pat chunk : List Char) : List Char :=
  match pyFind pat chunk with
  | some i => chunk.take i
  | none => chunk

/-- Models Python `str.strip()` (no arguments): drop leading and trailing
whitespace. -/
def pyStrip (s : List Char) : List Char :=
  ((s.dropWhile pyIsSpaceB).reverse.dropWhile pyIsSpaceB).reverse

/-- The metadata cutoff tokens of line 36, in source order. -/
def modernCutoffs : List (List Char) :=
  ["__kIM".toList, "NSNumber".toList, "NSValue".toList, "NSDictionary".toList,
   [Char.ofNat 0x02], [Char.ofNat 0x86]]

/-- The cutoff loop of lines 37-39: each token is applied, in list order,
to the chunk as already shortened by the earlier tokens. -/
def applyCutoffs (cs : List (List Char)) (chunk : List Char) : List Char :=
  cs.foldl (fun ch pat => cutAt pat ch) chunk

/-- The prefix classification of lines 25-33: 0x81 skips three characters
(empty when the run has at most three), a code below 128 skips one, any
other first character leaves the run unchanged. -/
def classifyChunk (raw : List Char) : List Char :=
  match raw with
  | [] => raw
  | c :: _ =>
    if c.toNat = 0x81 then (if 3 < raw.length then raw.drop 3 else [])
    else if c.toNat < 128 then raw.drop 1
    else raw

/-- The artifact correction of lines 42-43: drop a leading lowercase letter
immediately followed by an uppercase one, when the chunk is longer than
two characters. -/
def artifactStrip (chunk : List Char) : List Char :=
  match chunk with
  | a :: b :: c :: t =>
    if pyIsLowerB a && pyIsUpperB b then b :: c :: t else chunk
  | _ => chunk

/-- The Modern-Format candidate chunk (lines 21-45): everything the code
computes before the length-acceptance test, `none` when the text has no
`+` separator. -/
def modernCandidate (text : List Char) : Option (List Char) :=
  match pyFind ['+'] text with
  | none => none
  | some idx =>
    some (pyStrip (artifactStrip (applyCutoffs modernCutoffs
      (classifyChunk ((text.drop (idx + 1)).take 999)))))

/-- The Modern-Format strategy (lines 21-47): return the candidate chunk
iff its trimmed length exceeds 3. -/
def modernExtract (text : List Char) : Option (List Char) :=
  match modernCandidate text with
  | none => none
  | some chunk => if 3 < chunk.length then some chunk else none

/-- Models Python `str.replace(pat, repl)` for the non-empty pattern
`p :: ps`: non-overlapping, left to right.  Fuel equals the string length
and is never exhausted. -/
def pyReplaceFuel (p : Char) (ps repl : List Char) : Nat → List Char → List Char
  | _, [] => []
  | 0, s => s
  | f + 1, c :: t =>
    if (p :: ps).isPrefixOf (c :: t) then
      repl ++ pyReplaceFuel p ps repl f (t.drop ps.length)
    else c :: pyReplaceFuel p ps repl f t

/-- Models Python `str.replace` with a non-empty pattern. -/
def pyReplace (p : Char) (ps repl s : List Char) : List Char :=
  pyReplaceFuel p ps repl s.length s

/-- One marker substitution of line 61: `readable.replace(marker, ' ')`.
Every marker in the source list is non-empty; the empty-pattern case is
unreachable and returns the string unchanged. -/
def replaceMarker (s pat : List Char) : List Char :=
  match pat with
  | [] => s
  | p :: ps => pyReplace p ps [' '] s

/-- The marker tokens of line 60, in source order. -/
def legacyMarkers : List (List Char) :=
  ["NSMutableString".toList, "NSDictionary".toList, "NSNumber".toList,
   "NSValue".toList, "NSObject".toList, "NSData".toList, ['i'], ['I']]

/-- Models Python `str.split(sep)` for the non-empty separator `p :: ps`:
non-overlapping, left to right, keeping empty segments.  Fuel equals the
string length and is never exhausted. -/
def pySplitFuel (p : Char) (ps : List Char) : Nat → List Char → List Char → List (List Char)
  | _, acc, [] => [acc.reverse]
  | 0, acc, s => [acc.reverse ++ s]
  | f + 1, acc, c :: t =>
    if (p :: ps).isPrefixOf (c :: t) then
      acc.reverse :: pySplitFuel p ps f [] (t.drop ps.length)
    else pySplitFuel p ps f (c :: acc) t

/-- Models Python `str.split(sep)` with a non-empty separator. -/
def pySplit (p : Char) (ps s : List Char) : List (List Char) :=
  pySplitFuel p ps s.length [] s

/-- Models Python `str.split()` (no arguments): split on whitespace runs,
dropping empty segments. -/
def pySplitWsAux (acc : List Char) : List Char → List (List Char)
  | [] => if acc = [] then [] else [acc.reverse]
  | c :: t =>
    if pyIsSpaceB c then
      (if acc = [] then pySplitWsAux [] t else acc.reverse :: pySplitWsAux [] t)
    else pySplitWsAux (c :: acc) t

/-- Models Python `str.split()` with no arguments. -/
def pySplitWs (s : List Char) : List (List Char) := pySplitWsAux [] s

/-- The segment cleaning of lines 58-62: keep printable characters,
substitute a space for every marker occurrence (in list order, including
the bare letters i and I), then collapse whitespace and trim. -/
def cleanPart (part : List Char) : List Char :=
  pyStrip (List.intercalate [' ']
    (pySplitWs (legacyMarkers.foldl replaceMarker (part.filter pyIsPrintableB))))

/-- The acceptance test of line 63: longer than 10 characters and not
starting with the `+` separator. -/
abbrev segmentQualifies (r : List Char) : Prop :=
  10 < r.length ∧ r.head? ≠ some '+'

/-- The segment loop of lines 56-64: return the first 500 characters of
the first cleaned segment that qualifies. -/
def scanParts : List (List Char) → Option (List Char)
  | [] => none
  | part :: rest =>
    if segmentQualifies (cleanPart part) then some ((cleanPart part).take 500)
    else scanParts rest

/-- The legacy format marker of line 50. -/
def streamtypedTok : List Char := "streamtyped".toList

/-- The `NSString`-delimited segments after the discarded header segment:
`text.split('NSString')` then `parts[1:]` (lines 55-56). -/
def nsStringParts (text : List Char) : List (List Char) :=
  (pySplit 'N' "SString".toList text).drop 1

/-- A character the regex class `[^\s\x00]` of line 67 accepts. -/
def urlChar (c : Char) : Bool := !pyIsSpaceB c && c.toNat != 0

/-- Match of the regex `https?://[^\s\x00]+` anchored at the start of `s`:
the scheme (greedy on the optional s), then a maximal non-empty run of
accepted characters. -/
def matchUrlAt (s : List Char) : Option (List Char) :=
  if ("https://".toList).isPrefixOf s then
    (fun body => if body = [] then none else some ("https://".toList ++ body))
      ((s.drop 8).takeWhile urlChar)
  else if ("http://".toList).isPrefixOf s then
    (fun body => if body = [] then none else some ("http://".toList ++ body))
      ((s.drop 7).takeWhile urlChar)
  else none

/-- The leftmost match of the URL pattern in the text: `re.findall(...)`
followed by taking element 0 (lines 67-69). -/
def findUrl : List Char → Option (List Char)
  | [] => none
  | c :: t =>
    match matchUrlAt (c :: t) with
    | some u => some u
    | none => findUrl t

/-- The legacy streamtyped strategy (lines 49-69): guard on the
`streamtyped` marker, scan the `NSString` segments, then fall back to URL
extraction. -/
def legacyExtract (text : List Char) : Option (List Char) :=
  if containsSub streamtypedTok text then
    match scanParts (nsStringParts text) with
    | some r => some r
    | none => findUrl text
  else none

/-- The dispatcher over the Lossy Text View: Modern-Format first, then the
legacy strategy, then the empty sentinel (the `return ""` of line 71). -/
def decodeText (text : List Char) : List Char :=
  match modernExtract text with
  | some chunk => chunk
  | none => (legacyExtract text).getD []

/-- The embedded `decode_attributed_body` (lines 13-73): `none` models a
NULL blob; `if not blob` short-circuits both `None` and the empty byte
string to the empty result.  The body of the source `try` raises on no
input, so the `except` arm is dead and the function is this pure
computation. -/
def decode_attributed_body : Option (List Nat) → List Char
  | none => []
  | some bs => if bs = [] then [] else decodeText (utf8Ignore bs)

set_option maxRecDepth 40000

/-- A streamtyped text view whose single segment cleans to 501 characters:
the source then returns only the first 500 of them. -/
def c4Text : List Char := "streamtypedNSString".toList ++ List.replicate 501 'a'

/-- ASCII bytes of `c4Text`. -/
def c4Blob : List Nat := c4Text.map Char.toNat

/-- A streamtyped text view whose first segment cleans to the qualifying
sixteen-character string "Hello good verse". -/
def c4wText : List Char := "streamtypedNSStringHello good verse".toList

/-- The Lossy Text View of the spec's Modern-Format example. -/
def c6Text : List Char :=
  "junk+".toList ++ [Char.ofNat 0x81, Char.ofNat 0, Char.ofNat 0] ++
    "Hello world__kIMextra".toList

/-- A blob whose text view is `c6Text`: the bytes 0xC2 0x81 decode to the
character U+0081. -/
def c6Blob : List Nat :=
  "junk+".toList.map Char.toNat ++ [0xC2, 0x81, 0x00, 0x00] ++
    "Hello world__kIMextra".toList.map Char.toNat

/-- A text view whose Modern-Format candidate trims to the two-character
chunk "Hi", below the acceptance threshold. -/
def c7Text : List Char := "a+".toList ++ [Char.ofNat 5] ++ "Hi".toList

/-- A text view containing the streamtyped marker, no `NSString` segment
and a URL, but whose Modern-Format chunk is accepted first. -/
def c8Text : List Char :=
  "a+".toList ++ [Char.ofNat 5] ++ "Message here streamtyped https://x.co".toList

/-- Bytes of `c8Text` (all code points below 0x80). -/
def c8Blob : List Nat := c8Text.map Char.toNat

/-- A streamtyped text view with no `+`, no `NSString` segment and one
URL. -/
def c8wText : List Char := "streamtyped see https://ex.org/a".toList

/-- Cutting a chunk at a token occurrence yields a prefix of the chunk. -/
theorem cutAt_isPre (pat ch : List Char) : cutAt pat ch <+: ch := by
  unfold cutAt
  cases pyFind pat ch with
  | none => exact ⟨[], List.append_nil ch⟩
  | some i => exact ⟨ch.drop i, List.take_append_drop i ch⟩

/-- Folding any token list through `cutAt` yields a prefix of the chunk. -/
theorem applyCutoffs_isPre (cs : List (List Char)) (chunk : List Char) :
    applyCutoffs cs chunk <+: chunk := by
  induction cs generalizing chunk with
  | nil => exact ⟨[], List.append_nil chunk⟩
  | cons pat rest ih =>
      exact (ih (cutAt pat chunk)).trans (cutAt_isPre pat chunk)

/-- C1: for every input blob, including malformed ones, the embedded
`decode_attributed_body` is a total function: it terminates and returns a
string on every input, and the only failure signal is the empty string.
Totality holds by construction — every code path of the source body is a
normal control-flow branch, so the embedding needs no exception monad. -/
theorem C1_decode_total (blob : Option (List Nat)) :
    ∃ s : List Char, decode_attributed_body blob = s :=
  ⟨decode_attributed_body blob, rfl⟩

/-- C2: `decode_attributed_body` is deterministic — it is a pure function
of its input blob, so any two calls on the same bytes yield the same
output string. -/
theorem C2_decode_deterministic (b1 b2 : Option (List Nat)) (h : b1 = b2) :
    decode_attributed_body b1 = decode_attributed_body b2 := by rw [h]

theorem C2_witness :
    decode_attributed_body (some [0x41, 0xFF, 0x42]) =
      decode_attributed_body (some [0x41, 0xFF, 0x42]) :=
  C2_decode_deterministic (some [0x41, 0xFF, 0x42]) (some [0x41, 0xFF, 0x42]) rfl

/-- C3: for every absent (`none`) or zero-length blob,
`decode_attributed_body` returns the empty string immediately, by the
`if not blob` short-circuit, without attempting either extraction
strategy. -/
theorem C3_empty_short_circuit (blob : Option (List Nat))
    (h : blob = none ∨ blob = some []) :
    decode_attributed_body blob = [] := by
  rcases h with h | h <;> subst h <;> rfl

theorem C3_witness :
    (some ([] : List Nat) = none ∨ some ([] : List Nat) = some []) ∧
      decode_attributed_body (some []) = [] :=
  ⟨Or.inr rfl, C3_empty_short_circuit (some []) (Or.inr rfl)⟩

/-- C5 as stated is false: the source builds the Lossy Text View with
`blob.decode('utf-8', errors='ignore')`, which deletes ill-formed byte
sequences instead of substituting a placeholder.  The blob
`[0x41, 0xFF, 0x42]` contains the invalid byte 0xFF, yet its text view is
the two-character string "AB" with no placeholder (U+FFFD) anywhere. -/
theorem C5_counterexample :
    utf8Ignore [0x41, 0xFF, 0x42] = ['A', 'B'] ∧
      Char.ofNat 0xFFFD ∉ utf8Ignore [0x41, 0xFF, 0x42] ∧
      (utf8Ignore [0x41, 0xFF, 0x42]).length = 2 := by
  refine ⟨by decide, by decide, by decide⟩

/-- The decoder of the empty byte list yields the empty text for every
fuel value. -/
theorem utf8IgnoreFuel_nil (f : Nat) : utf8IgnoreFuel f [] = [] := by
  cases f <;> rfl

set_option maxHeartbeats 1000000 in
/-- The fuel argument of `utf8IgnoreFuel` is irrelevant as long as it is
at least the input length: every recursive call drops at least one byte
while spending exactly one unit of fuel. -/
theorem utf8IgnoreFuel_ext (f1 : Nat) :
    ∀ (l : List Nat) (f2 : Nat), l.length ≤ f1 → l.length ≤ f2 →
      utf8IgnoreFuel f1 l = utf8IgnoreFuel f2 l := by
  induction f1 with
  | zero =>
    intro l f2 h1 _
    have hl : l = [] := List.eq_nil_of_length_eq_zero (Nat.le_zero.mp h1)
    subst hl
    rw [utf8IgnoreFuel_nil, utf8IgnoreFuel_nil]
  | succ g ih =>
    intro l f2 h1 h2
    cases l with
    | nil => rw [utf8IgnoreFuel_nil, utf8IgnoreFuel_nil]
    | cons b t =>
      cases f2 with
      | zero => exact absurd h2 (by simp)
      | succ g2 =>
        rcases t with _ | ⟨b2, t2⟩
        · simp only [utf8IgnoreFuel]
        · rcases t2 with _ | ⟨b3, t3⟩
          · simp only [List.length_cons, List.length_nil] at h1 h2
            simp only [utf8IgnoreFuel]
            try split_ifs
            all_goals first
              | rfl
              | (simp only [utf8IgnoreFuel_nil])
              | (refine ih _ _ ?_ ?_ <;>
                  (try simp only [List.length_cons, List.length_nil]) <;> omega)
              | (refine congrArg (List.cons _) (ih _ _ ?_ ?_) <;>
                  (try simp only [List.length_cons, List.length_nil]) <;> omega)
          · rcases t3 with _ | ⟨b4, t4⟩ <;>
              simp only [List.length_cons, List.length_nil] at h1 h2 <;>
              simp only [utf8IgnoreFuel] <;>
              try split_ifs
            all_goals first
              | rfl
              | (simp only [utf8IgnoreFuel_nil])
              | (refine ih _ _ ?_ ?_ <;>
                  (try simp only [List.length_cons, List.length_nil]) <;> omega)
              | (refine congrArg (List.cons _) (ih _ _ ?_ ?_) <;>
                  (try simp only [List.length_cons, List.length_nil]) <;> omega)

set_option maxHeartbeats 1000000 in
/-- The decoding step `utf8First` always makes progress: the remainder it
leaves is strictly shorter than the input, so iterating the step consumes
the whole blob. -/
theorem utf8First_rest_lt (b : Nat) (bs : List Nat) :
    (utf8First b bs).2.length < (b :: bs).length := by
  rcases bs with _ | ⟨b2, t2⟩
  · simp only [utf8First]
    try split_ifs
    all_goals simp only [List.length_cons, List.length_nil] <;> omega
  · rcases t2 with _ | ⟨b3, t3⟩
    · simp only [utf8First]
      try split_ifs
      all_goals simp only [List.length_cons, List.length_nil] <;> omega
    · rcases t3 with _ | ⟨b4, t4⟩ <;>
        simp only [utf8First] <;>
        try split_ifs
      all_goals simp only [List.length_cons, List.length_nil] <;> omega

set_option maxHeartbeats 1000000 in
/-- One unfolding of the decoder through `utf8First`, at any fuel value:
each branch of `utf8IgnoreFuel` emits exactly what the step emits and
continues on the remainder the step leaves, spending one unit of fuel. -/
theorem utf8IgnoreFuel_step (f : Nat) (b : Nat) (bs : List Nat) :
    utf8IgnoreFuel (f + 1) (b :: bs) =
      (utf8First b bs).1.toList ++ utf8IgnoreFuel f (utf8First b bs).2 := by
  rcases bs with _ | ⟨b2, t2⟩
  · simp only [utf8First, utf8IgnoreFuel]
    try split_ifs
    all_goals first
      | rfl
      | (simp only [Option.toList, List.cons_append, List.nil_append,
          List.append_nil, utf8IgnoreFuel_nil])
  · rcases t2 with _ | ⟨b3, t3⟩
    · simp only [utf8First, utf8IgnoreFuel]
      try split_ifs
      all_goals first
        | rfl
        | (simp only [Option.toList, List.cons_append, List.nil_append,
            List.append_nil, utf8IgnoreFuel_nil])
    · rcases t3 with _ | ⟨b4, t4⟩ <;>
        simp only [utf8First, utf8IgnoreFuel] <;>
        try split_ifs
      all_goals first
        | rfl
        | (simp only [Option.toList, List.cons_append, List.nil_append,
            List.append_nil, utf8IgnoreFuel_nil])

/-- The Lossy Text View decomposes through `utf8First`: the first
well-formed sequence contributes exactly its one character, a maximal
ill-formed subpart contributes nothing, and decoding resumes on the
remainder. -/
theorem utf8Ignore_step (b : Nat) (bs : List Nat) :
    utf8Ignore (b :: bs) =
      (utf8First b bs).1.toList ++ utf8Ignore (utf8First b bs).2 := by
  have h1 : utf8Ignore (b :: bs) =
      (utf8First b bs).1.toList ++ utf8IgnoreFuel bs.length (utf8First b bs).2 :=
    utf8IgnoreFuel_step bs.length b bs
  have h2 : utf8Ignore (utf8First b bs).2 =
      utf8IgnoreFuel (utf8First b bs).2.length (utf8First b bs).2 := rfl
  have hlt := utf8First_rest_lt b bs
  simp only [List.length_cons] at hlt
  rw [h1, h2]
  refine congrArg (fun x => (utf8First b bs).1.toList ++ x) ?_
  exact utf8IgnoreFuel_ext bs.length _ _ (by omega) (le_refl _)

/-- C5 amended: the Lossy Text View is produced by a lossy mapping that
deletes ill-formed UTF-8 rather than substituting a placeholder.  For
every non-empty blob the view is what the first decoding step emits
followed by the view of the remaining bytes: a well-formed leading
sequence emits exactly its character, and a maximal ill-formed subpart —
a never-valid byte, a valid lead byte whose continuation bytes are wrong,
or a sequence truncated by the end of input — emits nothing, so no
placeholder is ever inserted.  The remainder is strictly shorter, so
iterating this step decomposes the whole blob: ill-formed subparts at
every position are deleted. -/
theorem C5_amended_ill_formed_deleted (b : Nat) (bs : List Nat) :
    (utf8First b bs).2.length < (b :: bs).length ∧
      utf8Ignore (b :: bs) =
        (utf8First b bs).1.toList ++ utf8Ignore (utf8First b bs).2 ∧
      ((utf8First b bs).1 = none →
        utf8Ignore (b :: bs) = utf8Ignore (utf8First b bs).2) :=
  ⟨utf8First_rest_lt b bs, utf8Ignore_step b bs,
    fun h => by rw [utf8Ignore_step b bs, h]; rfl⟩

theorem C5_witness :
    ((utf8First 0xC2 [0x41]).1 = none ∧
      utf8Ignore [0xC2, 0x41] = utf8Ignore (utf8First 0xC2 [0x41]).2) ∧
    ((utf8First 0x80 [0x42]).1 = none ∧
      utf8Ignore [0x80, 0x42] = utf8Ignore (utf8First 0x80 [0x42]).2) ∧
    utf8Ignore [0x41, 0x80, 0x42] = ['A', 'B'] :=
  ⟨⟨by decide, (C5_amended_ill_formed_deleted 0xC2 [0x41]).2.2 (by decide)⟩,
   ⟨by decide, (C5_amended_ill_formed_deleted 0x80 [0x42]).2.2 (by decide)⟩,
   by decide⟩

/-- C6: for every blob whose Lossy Text View is
"junk+\x81\x00\x00Hello world__kIMextra", decode returns exactly
"Hello world": the 0x81 first-run character triggers the 3-character
prefix skip and the result is truncated at the first `__kIM`. -/
theorem C6_modern_example (bs : List Nat) (h : utf8Ignore bs = c6Text) :
    decode_attributed_body (some bs) = "Hello world".toList := by
  have hne : bs ≠ [] := by
    intro he
    subst he
    exact absurd h (by decide)
  show (if bs = [] then [] else decodeText (utf8Ignore bs)) = "Hello world".toList
  rw [if_neg hne, h]
  decide

theorem C6_witness : decode_attributed_body (some c6Blob) = "Hello world".toList :=
  C6_modern_example c6Blob (by decide)

/-- C7: the Modern-Format strategy accepts its candidate chunk iff the
trimmed chunk is strictly longer than 3 characters; when the chunk trims
to length at most 3 the strategy yields nothing and the dispatcher hands
the text to the legacy strategy, returning its result or empty. -/
theorem C7_acceptance_threshold (text ch : List Char)
    (h : modernCandidate text = some ch) :
    (modernExtract text = some ch ↔ 3 < ch.length) ∧
      (ch.length ≤ 3 →
        modernExtract text = none ∧ decodeText text = (legacyExtract text).getD []) := by
  have he : modernExtract text = if 3 < ch.length then some ch else none := by
    unfold modernExtract
    rw [h]
  constructor
  · constructor
    · intro hs
      by_contra hlen
      rw [he, if_neg hlen] at hs
      exact Option.noConfusion hs
    · intro hlen
      rw [he, if_pos hlen]
  · intro hle
    have hnone : modernExtract text = none := by
      rw [he, if_neg (by omega)]
    refine ⟨hnone, ?_⟩
    unfold decodeText
    rw [hnone]

theorem C7_witness :
    (modernExtract c7Text = some "Hi".toList ↔ 3 < "Hi".toList.length) ∧
      ("Hi".toList.length ≤ 3 →
        modernExtract c7Text = none ∧ decodeText c7Text = (legacyExtract c7Text).getD []) :=
  C7_acceptance_threshold c7Text "Hi".toList (by decide)

/-- C9: the Modern-Format marker truncation applies the tokens of the
fixed Marker Set in their list order, each one cutting the chunk as
already shortened by the earlier tokens, and for every payload the result
is a prefix of the original payload — the step can only shorten, never
re-lengthen. -/
theorem C9_marker_truncation_shortens (chunk : List Char) :
    applyCutoffs modernCutoffs chunk <+: chunk ∧
      applyCutoffs modernCutoffs chunk =
        cutAt [Char.ofNat 0x86] (cutAt [Char.ofNat 0x02] (cutAt "NSDictionary".toList
          (cutAt "NSValue".toList (cutAt "NSNumber".toList (cutAt "__kIM".toList chunk))))) :=
  ⟨applyCutoffs_isPre modernCutoffs chunk, rfl⟩

/-- The segment loop returns the first 500 characters of the first
qualifying cleaned segment. -/
theorem scanParts_first (ps : List (List Char)) (i : Nat) (hi : i < ps.length)
    (hq : segmentQualifies (cleanPart (ps.get ⟨i, hi⟩)))
    (hb : ∀ j (hj : j < i), ¬ segmentQualifies (cleanPart (ps.get ⟨j, Nat.lt_trans hj hi⟩))) :
    scanParts ps = some ((cleanPart (ps.get ⟨i, hi⟩)).take 500) := by
  induction ps generalizing i with
  | nil => exact absurd hi (Nat.not_lt_zero i)
  | cons p rest ih =>
    cases i with
    | zero =>
      have hget : (p :: rest).get ⟨0, hi⟩ = p := rfl
      rw [hget] at hq
      show (if segmentQualifies (cleanPart p) then some ((cleanPart p).take 500)
        else scanParts rest) = some ((cleanPart ((p :: rest).get ⟨0, hi⟩)).take 500)
      rw [hget, if_pos hq]
    | succ n =>
      have h0 : ¬ segmentQualifies (cleanPart p) := hb 0 (Nat.succ_pos n)
      show (if segmentQualifies (cleanPart p) then some ((cleanPart p).take 500)
        else scanParts rest) = _
      rw [if_neg h0]
      exact ih n (Nat.lt_of_succ_lt_succ hi) hq
        (fun j hj => hb (j + 1) (Nat.succ_lt_succ hj))

/-- C4 as stated is false: the legacy segment path does not return the
cleaned segment itself but at most its first 500 characters.  On the blob
whose text view is `c4Text`, the single `NSString` segment cleans to 501
characters, qualifies (length over 10, no leading `+`), yet decode returns
only the first 500 of them. -/
theorem C4_counterexample :
    containsSub streamtypedTok c4Text = true ∧
      nsStringParts c4Text = [List.replicate 501 'a'] ∧
      cleanPart (List.replicate 501 'a') = List.replicate 501 'a' ∧
      decode_attributed_body (some c4Blob) = List.replicate 500 'a' ∧
      decode_attributed_body (some c4Blob) ≠ cleanPart (List.replicate 501 'a') := by
  refine ⟨by decide, by decide, by decide, by decide, by decide⟩

/-- C4 amended: in the legacy streamtyped path (the text view contains
`streamtyped` and the Modern-Format strategy yielded nothing), the first
`NSString`-delimited segment after the discarded header whose cleaned form
is longer than 10 characters and does not begin with `+` is returned
immediately — truncated to its first 500 characters (the full cleaned
segment whenever it is at most 500 characters long). -/
theorem C4_amended_first_segment (text : List Char) (i : Nat)
    (hm : modernExtract text = none)
    (hst : containsSub streamtypedTok text = true)
    (hi : i < (nsStringParts text).length)
    (hq : segmentQualifies (cleanPart ((nsStringParts text).get ⟨i, hi⟩)))
    (hb : ∀ j (hj : j < i),
      ¬ segmentQualifies (cleanPart ((nsStringParts text).get ⟨j, Nat.lt_trans hj hi⟩))) :
    decodeText text = (cleanPart ((nsStringParts text).get ⟨i, hi⟩)).take 500 := by
  have hscan := scanParts_first (nsStringParts text) i hi hq hb
  unfold decodeText
  rw [hm]
  unfold legacyExtract
  rw [hst]
  simp only [if_true, hscan, Option.getD_some]

theorem C4_witness :
    decodeText c4wText =
      (cleanPart ((nsStringParts c4wText).get ⟨0, by decide⟩)).take 500 :=
  C4_amended_first_segment c4wText 0 (by decide) (by decide) (by decide) (by decide)
    (fun j hj => absurd hj (Nat.not_lt_zero j))

/-- C8 as stated is false: on a blob whose text view contains
`streamtyped`, has no qualifying `NSString` segment and contains a URL,
decode need not return the URL — the Modern-Format strategy runs first and
may accept a chunk.  On `c8Blob` every hypothesis of the claim holds, the
first URL match is "https://x.co", yet decode returns the Modern-Format
chunk instead. -/
theorem C8_counterexample :
    containsSub streamtypedTok c8Text = true ∧
      scanParts (nsStringParts c8Text) = none ∧
      findUrl c8Text = some "https://x.co".toList ∧
      decode_attributed_body (some c8Blob) =
        "Message here streamtyped https://x.co".toList ∧
      decode_attributed_body (some c8Blob) ≠ "https://x.co".toList := by
  refine ⟨by decide, by decide, by decide, by decide, by decide⟩

/-- C8 amended: when additionally the Modern-Format strategy yields
nothing, a text view that contains `streamtyped`, has no qualifying
`NSString` segment and contains a match of the pattern
`https?://[^\s\x00]+` makes decode return the first such match
verbatim. -/
theorem C8_amended_url_fallback (text u : List Char)
    (hm : modernExtract text = none)
    (hst : containsSub streamtypedTok text = true)
    (hseg : scanParts (nsStringParts text) = none)
    (hurl : findUrl text = some u) :
    decodeText text = u := by
  unfold decodeText
  rw [hm]
  unfold legacyExtract
  rw [hst]
  simp only [if_true, hseg, hurl, Option.getD_some]

theorem C8_witness : decodeText c8wText = "https://ex.org/a".toList :=
  C8_amended_url_fallback c8wText ("https://ex.org/a".toList) (by decide) (by decide)
    (by decide) (by decide)

/-- C10: every string the legacy `NSString`-segment path returns comes
from a qualifying cleaned segment truncated to its first 500 characters,
so its length is at most 500. -/
theorem C10_legacy_truncates_500 (ps : List (List Char)) (r : List Char)
    (h : scanParts ps = some r) :
    r.length ≤ 500 ∧
      ∃ p ∈ ps, segmentQualifies (cleanPart p) ∧ r = (cleanPart p).take 500 := by
  induction ps with
  | nil => exact Option.noConfusion h
  | cons p rest ih =>
    by_cases hq : segmentQualifies (cleanPart p)
    · have h2 : some ((cleanPart p).take 500) = some r := by
        rw [← h]
        show _ = (if segmentQualifies (cleanPart p) then some ((cleanPart p).take 500)
          else scanParts rest)
        rw [if_pos hq]
      have h3 : r = (cleanPart p).take 500 := (Option.some.inj h2).symm
      refine ⟨?_, p, List.mem_cons_self p rest, hq, h3⟩
      rw [h3]
      exact le_trans (List.length_take_le 500 (cleanPart p)) (le_refl 500)
    · have h2 : scanParts rest = some r := by
        rw [← h]
        show _ = (if segmentQualifies (cleanPart p) then some ((cleanPart p).take 500)
          else scanParts rest)
        rw [if_neg hq]
      obtain ⟨hlen, q, hmem, hq2, he⟩ := ih h2
      exact ⟨hlen, q, List.mem_cons_of_mem p hmem, hq2, he⟩

theorem C10_witness :
    (List.replicate 12 'a').length ≤ 500 ∧
      ∃ p ∈ [List.replicate 12 'a'],
        segmentQualifies (cleanPart p) ∧ List.replicate 12 'a' = (cleanPart p).take 500 :=
  C10_legacy_truncates_500 [List.replicate 12 'a'] (List.replicate 12 'a') (by decide)
